import Mathlib

/-!
Shallow embedding of `src/main.js` (error-message transformation over
Immutable.js collections).

An Immutable.js value flowing through this program is a Map (keyed
collection with string keys), a List (indexed collection), or a plain
JavaScript string leaf.  `ErrorTree` mirrors that.  JavaScript runtime
type errors (calling a missing method such as `"".isEmpty()` or
`"x".filter(...)`) are modelled by `Option`: `none` is an uncaught
TypeError.  Immutable value equality (`Immutable.is`) is structural
equality on this tree (entry order of Maps is compared structurally here;
no claim below depends on order-insensitive Map equality).  `Immutable.Set`
iteration order is modelled as first-insertion order.
-/

/-- Whitespace as trimmed by JavaScript `String.prototype.trim`
(the characters that can actually occur here). -/
def isWS (c : Char) : Bool :=
  c == ' ' || c == '\t' || c == '\n' || c == '\r'

/-- `trim` on the character list: drop whitespace from the front,
then from the back. -/
def trimChars (cs : List Char) : List Char :=
  ((cs.dropWhile isWS).reverse.dropWhile isWS).reverse

/-- JavaScript `String.prototype.trim`. -/
def jsTrim (s : String) : String :=
  String.mk (trimChars s.data)

/-- JavaScript `Array.prototype.join` / Immutable `join` with a separator:
elements interleaved with the separator, no trailing separator. -/
def joinSep (sep : String) : List String → String
  | [] => ""
  | [x] => x
  | x :: xs => x ++ sep ++ joinSep sep xs

/-- `pat` is a prefix of `s` (character lists). -/
def startsWithChars : List Char → List Char → Bool
  | [], _ => true
  | _ :: _, [] => false
  | p :: ps, c :: cs => p == c && startsWithChars ps cs

/-- `pat` occurs as a contiguous substring of `s` (character lists);
models JavaScript `String.prototype.includes`. -/
def occursIn (pat : List Char) : List Char → Bool
  | [] => pat.isEmpty
  | c :: rest => startsWithChars pat (c :: rest) || occursIn pat rest

/-- `s` ends with `suf`. -/
def strEndsWith (s suf : String) : Bool :=
  startsWithChars suf.data.reverse s.data.reverse

/-- Boolean membership via `==` (the equality the collection library uses). -/
def memB [BEq α] (x : α) : List α → Bool
  | [] => false
  | y :: ys => x == y || memB x ys

/-- Number of occurrences of `x`, via `==`. -/
def countB [BEq α] (x : α) : List α → Nat
  | [] => 0
  | y :: ys => (if x == y then 1 else 0) + countB x ys

/-- Deduplication keeping first occurrences, accumulating the values
already seen; models building an `Immutable.Set` by insertion. -/
def dedupAux [BEq α] (seen : List α) : List α → List α
  | [] => []
  | x :: xs => if memB x seen then dedupAux seen xs else x :: dedupAux (x :: seen) xs

/-- `Immutable.Set(list)` as a list in iteration (first-insertion) order. -/
def dedupList [BEq α] (l : List α) : List α :=
  dedupAux [] l

/-- Filter whose predicate may raise (JavaScript `filter`: the predicate
is evaluated left to right, the first TypeError aborts the whole call). -/
def filterOpt (p : α → Option Bool) : List α → Option (List α)
  | [] => some []
  | x :: xs =>
    match p x with
    | none => none
    | some b =>
      match filterOpt p xs with
      | none => none
      | some rest => some (if b then x :: rest else rest)

/-- Map over the entries of a keyed collection with a value transformer
that may raise. -/
def mapEntriesOpt (f : κ → α → Option β) : List (κ × α) → Option (List (κ × β))
  | [] => some []
  | kv :: rest =>
    match f kv.1 kv.2 with
    | none => none
    | some v2 =>
      match mapEntriesOpt f rest with
      | none => none
      | some rest2 => some ((kv.1, v2) :: rest2)

/-- An Immutable.js value as it occurs in this program: a keyed Map with
string keys, an indexed List, or a JavaScript string leaf. -/
inductive ErrorTree where
  | map : List (String × ErrorTree) → ErrorTree
  | seq : List ErrorTree → ErrorTree
  | leaf : String → ErrorTree

/- Structural value equality, modelling `Immutable.is` (string leaves
compare as strings, collections element by element). -/
mutual
def beqTree : ErrorTree → ErrorTree → Bool
  | .leaf a, .leaf b => a == b
  | .map a, .map b => beqEntryList a b
  | .seq a, .seq b => beqTreeList a b
  | _, _ => false

def beqTreeList : List ErrorTree → List ErrorTree → Bool
  | [], [] => true
  | a :: as, b :: bs => beqTree a b && beqTreeList as bs
  | _, _ => false

def beqEntryList : List (String × ErrorTree) → List (String × ErrorTree) → Bool
  | [], [] => true
  | a :: as, b :: bs => (a.1 == b.1 && beqTree a.2 b.2) && beqEntryList as bs
  | _, _ => false
end

instance : BEq ErrorTree := ⟨beqTree⟩

/-- `Immutable.Map.isMap`. -/
def isMap : ErrorTree → Bool
  | .map _ => true
  | _ => false

/-- `Immutable.is(x, Immutable.Map())`: value equality against the empty
Map, which only the empty Map itself satisfies. -/
def isEmptyMapVal : ErrorTree → Bool
  | .map [] => true
  | _ => false

/- The string Immutable.js collections print as inside `join` (the
`toString` a nested collection is coerced to when joined).  The flag says
whether we are in a nested position, where string values print quoted. -/
mutual
def jsToStr : ErrorTree → Bool → String
  | .leaf s, true => "\"" ++ s ++ "\""
  | .leaf s, false => s
  | .map [], _ => "Map \x7b\x7d"
  | .map kvs, _ => "Map \x7b " ++ joinSep ", " (jsEntryStrs kvs) ++ " \x7d"
  | .seq [], _ => "List []"
  | .seq xs, _ => "List [ " ++ joinSep ", " (jsElemStrs xs) ++ " ]"

def jsEntryStrs : List (String × ErrorTree) → List String
  | [] => []
  | kv :: rest => ("\"" ++ kv.1 ++ "\": " ++ jsToStr kv.2 true) :: jsEntryStrs rest

def jsElemStrs : List ErrorTree → List String
  | [] => []
  | x :: xs => jsToStr x true :: jsElemStrs xs
end

/-- `Immutable.Set(data)` as a list in insertion order: for a List its
deduplicated elements, for a Map its deduplicated values, for a string
its deduplicated characters (a JavaScript string is an iterable of
one-character strings). -/
def jsSetOf : ErrorTree → List ErrorTree
  | .map kvs => dedupList (kvs.map (fun kv => kv.2))
  | .seq xs => dedupList xs
  | .leaf s => dedupList (s.data.map (fun c => ErrorTree.leaf (String.mk [c])))

/-- The element list actually joined by `createString`:
`Immutable.Set(data).concat([''])` — a Set union, so the empty string is
appended only when not already present — with each element coerced to a
string by `join`. -/
def joinedElems (data : ErrorTree) : List String :=
  (if memB (ErrorTree.leaf "") (jsSetOf data) then jsSetOf data
   else jsSetOf data ++ [ErrorTree.leaf ""]).map (fun t => jsToStr t false)

/-- `createString(data)`: `Immutable.Set(data).concat(['']).join('. ').trim()`. -/
def createString (data : ErrorTree) : String :=
  jsTrim (joinSep ". " (joinedElems data))

/-- `hasMap`'s first disjunct, `data.includes(Immutable.Map())`: for a
collection, some element (for a Map: some value) is value-equal to the
empty Map; for a string leaf, JavaScript string `includes` of the
stringified empty Map. -/
def includesEmptyMap : ErrorTree → Bool
  | .map kvs => kvs.any (fun kv => isEmptyMapVal kv.2)
  | .seq xs => xs.any isEmptyMapVal
  | .leaf s => occursIn ("Map \x7b\x7d").data s.data

/-- `hasMap(data)`: `data.includes(Immutable.Map()) || Immutable.Map.isMap(data)`. -/
def hasMap (data : ErrorTree) : Bool :=
  includesEmptyMap data || isMap data

/- The arrow function inside `transformData`:
`data => Immutable.Map.isMap(data) ? transformData(data) : createString(data)`
(on a Map argument `transformData` maps this same function over the
entries, and never raises, so the result is a plain tree). -/
mutual
def tdGo : ErrorTree → ErrorTree
  | .map kvs => .map (tdGoEntries kvs)
  | .seq xs => .leaf (createString (.seq xs))
  | .leaf s => .leaf (createString (.leaf s))

def tdGoEntries : List (String × ErrorTree) → List (String × ErrorTree)
  | [] => []
  | kv :: rest => (kv.1, tdGo kv.2) :: tdGoEntries rest
end

/-- `transformData(data)`: `data.map(...)` with the arrow function above;
mapping over a string leaf is a TypeError (strings have no `map`). -/
def transformData : ErrorTree → Option ErrorTree
  | .map kvs => some (.map (tdGoEntries kvs))
  | .seq xs => some (.seq (xs.map tdGo))
  | .leaf _ => none

/-- The predicate inside `getNonEmptyCollections`:
`data => data.length || !data.isEmpty()`.  A string has a `length`
(truthy iff nonzero) but no `isEmpty`, so a zero-length string falls
through to `"".isEmpty()` and raises a TypeError; collections have no
`length` (undefined, falsy) and a real `isEmpty`. -/
def predNonEmpty : ErrorTree → Option Bool
  | .leaf s => if s.length != 0 then some true else none
  | .map kvs => some (!kvs.isEmpty)
  | .seq xs => some (!xs.isEmpty)

/-- `getNonEmptyCollections(data)`: `data.filter(...)` with the predicate
above; filtering a string leaf is a TypeError (strings have no `filter`). -/
def getNonEmptyCollections : ErrorTree → Option ErrorTree
  | .map kvs => (filterOpt (fun kv => predNonEmpty kv.2) kvs).map ErrorTree.map
  | .seq xs => (filterOpt predNonEmpty xs).map ErrorTree.seq
  | .leaf _ => none

/- Deep flatten of a collection value into its string leaves, modelling
Immutable `flatten()` (which by default flattens nested collections of
any depth, iterating the values of keyed collections). -/
mutual
def flattenTree : ErrorTree → List ErrorTree
  | .leaf s => [.leaf s]
  | .seq xs => flattenListTrees xs
  | .map kvs => flattenEntryTrees kvs

def flattenListTrees : List ErrorTree → List ErrorTree
  | [] => []
  | x :: xs => flattenTree x ++ flattenListTrees xs

def flattenEntryTrees : List (String × ErrorTree) → List ErrorTree
  | [] => []
  | kv :: rest => flattenTree kv.2 ++ flattenEntryTrees rest
end

/-- `flattenCollection(data)`: `data.toList().flatten()` — `toList` keeps
a List as is and takes the values of a Map; a string leaf has no
`toList` (TypeError). -/
def flattenCollection : ErrorTree → Option ErrorTree
  | .map kvs => some (.seq (flattenEntryTrees kvs))
  | .seq xs => some (.seq (flattenListTrees xs))
  | .leaf _ => none

/-- `keepNested(keysToKeepNested, key)`: array `includes`. -/
def keepNested (keysToKeepNested : List String) (key : String) : Bool :=
  keysToKeepNested.contains key

/-- `transformCollection(data)`:
`hasMap(data) ? transformData(data) : createString(data)`. -/
def transformCollection (data : ErrorTree) : Option ErrorTree :=
  if hasMap data then transformData data
  else some (.leaf (createString data))

/-- `transformCollectionFlat`: the lodash `flow` of
`getNonEmptyCollections`, `flattenCollection`, `transformCollection`
(each stage's TypeError aborts the pipeline). -/
def transformCollectionFlat (data : ErrorTree) : Option ErrorTree :=
  (getNonEmptyCollections data).bind fun pruned =>
    (flattenCollection pruned).bind fun flat =>
      transformCollection flat

/-- `transformErrors(errors, keysToKeepNested)`: map over the top-level
entries, dispatching on key membership. -/
def transformErrors (errors : List (String × ErrorTree))
    (keysToKeepNested : List String) : Option (List (String × ErrorTree)) :=
  mapEntriesOpt
    (fun key data =>
      if keepNested keysToKeepNested key then transformCollection data
      else transformCollectionFlat data)
    errors

/-- The test-vector input mapping
`{ name: { first: ["Required"], last: ["Required", "Too long"] } }`. -/
def errInput : List (String × ErrorTree) :=
  [("name", .map [("first", .seq [.leaf "Required"]),
                  ("last", .seq [.leaf "Required", .leaf "Too long"])])]

/-- The first character of `s` is not whitespace (vacuous for `""`). -/
def headNotWS (s : String) : Bool :=
  match s.data with
  | [] => true
  | c :: _ => !isWS c

/-- The last character of `s` is not whitespace (vacuous for `""`). -/
def lastNotWS (s : String) : Bool :=
  match s.data.getLast? with
  | none => true
  | some c => !isWS c

/-- Claim C1: evaluating the code at a sequence whose immediate element is a
nonempty mapping: `hasMap` is false — `includes(Immutable.Map())` only
matches the empty Map by value equality — so `transformCollection`
collapses the sequence to a string instead of recursing; only the second
half of the claim (a mapping node itself always has `hasMap` true) holds. -/
theorem c1_code_eval :
    hasMap (.seq [.map [("a", .seq [.leaf "x"])]]) = false ∧
    transformCollection (.seq [.map [("a", .seq [.leaf "x"])]]) =
      some (.leaf "Map \x7b \"a\": List [ \"x\" ] \x7d.") ∧
    ∀ kvs : List (String × ErrorTree), hasMap (.map kvs) = true :=
  ⟨rfl, rfl, fun kvs => by simp [hasMap, isMap]⟩

/-- Claim C2: evaluating the code at a still-nested node (a mapping) whose
immediate child is a sequence containing a mapping: even though `hasMap`
of the child is true (it contains the empty Map), `transformData` tests
the child with `Immutable.Map.isMap` only, so the child is collapsed to
the string `"Map {}."` rather than recursed into as a container. -/
theorem c2_code_eval :
    hasMap (.seq [.map []]) = true ∧
    transformData (.map [("k", .seq [.map []])]) =
      some (.map [("k", .leaf "Map \x7b\x7d.")]) :=
  ⟨rfl, rfl⟩

/-- Claim C6: evaluating the prune stage: an entry whose value is the
zero-length string raises a TypeError (`"".length` is falsy, and strings
have no `isEmpty` method), instead of being removed; entries with
non-empty string values or empty containers are handled as described. -/
theorem c6_code_eval :
    getNonEmptyCollections (.map [("k", .leaf "")]) = none ∧
    getNonEmptyCollections
        (.map [("k", .leaf "x"), ("j", .seq []), ("i", .map []),
               ("h", .seq [.leaf "y"])]) =
      some (.map [("k", .leaf "x"), ("h", .seq [.leaf "y"])]) :=
  ⟨rfl, rfl⟩

/-- Claim C4 (counterexample): with `keysToKeepNested = []` the test-vector
input flattens to the single string `"Required. Too long."`, which is not
the `". "`-join of the segment set `\x7bRequired, Too long\x7d` in either
order — the sentinel leaves a terminal period attached to the last
segment. -/
theorem c4_counterexample :
    transformErrors errInput [] = some [("name", .leaf "Required. Too long.")] ∧
    ("Required. Too long." == joinSep ". " ["Required", "Too long"]) = false ∧
    ("Required. Too long." == joinSep ". " ["Too long", "Required"]) = false :=
  ⟨rfl, rfl, rfl⟩

/-- Claim C4 (amended): the flattened value is the deduplicated messages
joined by `". "` with one terminal period from the sentinel join. -/
theorem c4_amended :
    transformErrors errInput [] =
      some [("name", .leaf (joinSep ". " ["Required", "Too long"] ++ "."))] :=
  rfl

/-- Claim C7 (counterexample): with `keysToKeepNested = ["name"]` the result
is not `{ name: { first: "Required", last: "Required. Too long" } }` — the
collapsed leaf strings each carry a trailing period. -/
theorem c7_counterexample :
    transformErrors errInput ["name"] =
      some [("name", .map [("first", .leaf "Required."),
                           ("last", .leaf "Required. Too long.")])] ∧
    ("Required." == "Required") = false ∧
    ("Required. Too long." == "Required. Too long") = false :=
  ⟨rfl, rfl, rfl⟩

/-- Claim C7 (amended): the substructure under the kept key retains its
mapping keys and only terminal leaf lists are collapsed, each collapsed
string ending in the terminal period left by the sentinel join. -/
theorem c7_amended :
    transformErrors errInput ["name"] =
      some [("name", .map [("first", .leaf "Required."),
                           ("last", .leaf "Required. Too long.")])] :=
  rfl

/-- Claim C5 (counterexample): `transformErrors` is not idempotent on its
own output: re-applying it to `{ a: "ab." }` (its own output for
`{ a: ["ab"] }` with `keysToKeepNested = ["a"]`) does not return the
string unchanged — the string is consumed as an iterable of characters. -/
theorem c5_counterexample :
    transformErrors [("a", .seq [.leaf "ab"])] ["a"] = some [("a", .leaf "ab.")] ∧
    transformErrors [("a", .leaf "ab.")] ["a"] = some [("a", .leaf "a. b. ..")] ∧
    ("a. b. .." == "ab.") = false :=
  ⟨rfl, rfl, rfl⟩

/-- Claim C5 (amended): a second application is a no-op only when the output
holds no string value, e.g. on the empty mapping; a string value under a
kept key is re-collapsed character-wise instead of passing through, and a
string value on the flattening path raises a TypeError. -/
theorem c5_amended :
    ∀ ks : List String,
      transformErrors [] ks = some [] ∧
      transformErrors [("a", .leaf "ab.")] ["a"] =
        some [("a", .leaf "a. b. ..")] ∧
      transformErrors [("a", .leaf "ab.")] [] = none :=
  fun _ => ⟨rfl, rfl, rfl⟩

theorem beq_leaf (a b : String) :
    (ErrorTree.leaf a == ErrorTree.leaf b) = (a == b) := rfl

theorem memB_map_leaf (x : String) (l : List String) :
    memB (ErrorTree.leaf x) (l.map ErrorTree.leaf) = memB x l := by
  induction l with
  | nil => rfl
  | cons y ys ih => simp [memB, beq_leaf, ih]

theorem memB_eq_true_iff [BEq α] [LawfulBEq α] (x : α) (l : List α) :
    memB x l = true ↔ x ∈ l := by
  induction l with
  | nil => simp [memB]
  | cons y ys ih => simp [memB, ih, beq_iff_eq]

theorem dedupAux_map_leaf (l seen : List String) :
    dedupAux (seen.map ErrorTree.leaf) (l.map ErrorTree.leaf) =
      (dedupAux seen l).map ErrorTree.leaf := by
  induction l generalizing seen with
  | nil => rfl
  | cons y ys ih =>
    cases h : memB y seen with
    | true => simp [dedupAux, memB_map_leaf, h, ih]
    | false =>
      simp only [List.map_cons, dedupAux, memB_map_leaf, h, if_false]
      exact congrArg (ErrorTree.leaf y :: ·) (ih (y :: seen))

theorem dedupList_map_leaf (l : List String) :
    dedupList (l.map ErrorTree.leaf) = (dedupList l).map ErrorTree.leaf :=
  dedupAux_map_leaf l []

theorem memB_dedupAux [BEq α] [LawfulBEq α] (x : α) (l : List α) :
    ∀ seen, memB x (dedupAux seen l) = (memB x l && !memB x seen) := by
  induction l with
  | nil => intro seen; simp [dedupAux, memB]
  | cons y ys ih =>
    intro seen
    cases hxy : (x == y) with
    | true =>
      have hx : x = y := by simpa using hxy
      subst hx
      cases hxs : memB x seen with
      | true => simp [dedupAux, hxs, memB, hxy, ih]
      | false => simp [dedupAux, hxs, memB, hxy, ih]
    | false =>
      cases hys : memB y seen with
      | true => simp [dedupAux, hys, memB, hxy, ih]
      | false => simp [dedupAux, hys, memB, hxy, ih]

theorem countB_append [BEq α] (x : α) (a b : List α) :
    countB x (a ++ b) = countB x a + countB x b := by
  induction a with
  | nil => simp [countB]
  | cons y ys ih => simp [countB, ih, Nat.add_assoc]

theorem countB_dedupAux [BEq α] [LawfulBEq α] (x : α) (l : List α) :
    ∀ seen, countB x (dedupAux seen l) =
      if memB x l && !memB x seen then 1 else 0 := by
  induction l with
  | nil => intro seen; simp [dedupAux, countB, memB]
  | cons y ys ih =>
    intro seen
    cases hxy : (x == y) with
    | true =>
      have hx : x = y := by simpa using hxy
      subst hx
      cases hxs : memB x seen with
      | true => simp [dedupAux, hxs, countB, memB, hxy, ih]
      | false => simp [dedupAux, hxs, countB, memB, hxy, ih]
    | false =>
      cases hys : memB y seen with
      | true => simp [dedupAux, hys, countB, memB, hxy, ih]
      | false => simp [dedupAux, hys, countB, memB, hxy, ih]

theorem dedupList_cons [BEq α] (x : α) (xs : List α) :
    dedupList (x :: xs) = x :: dedupAux [x] xs := by
  simp [dedupList, dedupAux, memB]

theorem map_jsToStr_map_leaf (l : List String) :
    (l.map ErrorTree.leaf).map (fun t => jsToStr t false) = l := by
  induction l with
  | nil => rfl
  | cons y ys ih => simp [jsToStr, ih]

theorem map_jsToStr_comp_leaf (l : List String) :
    l.map ((fun t => jsToStr t false) ∘ ErrorTree.leaf) = l := by
  induction l with
  | nil => rfl
  | cons y ys ih => simp [Function.comp, jsToStr, ih]

theorem joinedElems_leaves (l : List String) :
    joinedElems (.seq (l.map ErrorTree.leaf)) =
      (if memB "" l then dedupList l else dedupList l ++ [""]) := by
  have hset : jsSetOf (.seq (l.map ErrorTree.leaf)) = (dedupList l).map ErrorTree.leaf := by
    simp [jsSetOf, dedupList_map_leaf]
  have hmem : memB "" (dedupList l) = memB "" l := by
    simp [dedupList, memB_dedupAux, memB]
  unfold joinedElems
  rw [hset, memB_map_leaf, hmem]
  cases h : memB "" l with
  | true => simp [map_jsToStr_comp_leaf]
  | false => simp [map_jsToStr_comp_leaf, jsToStr]

theorem dropWhile_head_false (p : α → Bool) (l : List α) :
    ∀ c cs, l.dropWhile p = c :: cs → p c = false := by
  induction l with
  | nil => intro c cs h; simp [List.dropWhile] at h
  | cons a as ih =>
    intro c cs h
    rw [List.dropWhile_cons] at h
    split at h
    · exact ih c cs h
    · next hpa =>
      cases h
      simpa using hpa

theorem strEndsWith_jsTrim_sep (s : String) :
    strEndsWith (jsTrim s) ". " = false := by
  show startsWithChars [' ', '.'] ((trimChars s.data).reverse) = false
  unfold trimChars
  rw [List.reverse_reverse]
  cases hcase : (s.data.dropWhile isWS).reverse.dropWhile isWS with
  | nil => rfl
  | cons c cs =>
    have hc : isWS c = false := dropWhile_head_false isWS _ c cs hcase
    have hsp : (' ' == c) = false := by
      cases hb : (' ' == c) with
      | false => rfl
      | true =>
        exfalso
        have hceq : ' ' = c := by simpa using hb
        rw [← hceq] at hc
        simp [isWS] at hc
    simp [startsWithChars, hsp]

/-- Claim C3: on a sequence of string leaves, `createString` joins the
deduplicated values (plus the empty-string sentinel, when not already
present) with `". "` and trims the result, and the returned string never
ends with the separator `". "`. -/
theorem c3_join_dedup_no_trailing_sep (l : List String) :
    createString (.seq (l.map ErrorTree.leaf)) =
      jsTrim (joinSep ". "
        (if memB "" l then dedupList l else dedupList l ++ [""])) ∧
    strEndsWith (createString (.seq (l.map ErrorTree.leaf))) ". " = false := by
  constructor
  · unfold createString
    rw [joinedElems_leaves]
  · exact strEndsWith_jsTrim_sep _

/-- Claim C8: in the element list `createString` joins, every distinct
input value occurs exactly once (deduplication); concretely, the leaves
`["Required", "Required", "Too short"]` collapse to
`"Required. Too short."`, containing each message once. -/
theorem c8_dedup_exactly_once (l : List String) (v : String) (h : v ∈ l) :
    countB v (joinedElems (.seq (l.map ErrorTree.leaf))) = 1 ∧
    createString (.seq [.leaf "Required", .leaf "Required", .leaf "Too short"]) =
      "Required. Too short." := by
  refine ⟨?_, rfl⟩
  rw [joinedElems_leaves]
  have hv : memB v l = true := (memB_eq_true_iff v l).mpr h
  cases h0 : memB "" l with
  | true => simp [dedupList, countB_dedupAux, hv, memB]
  | false =>
    have hv0 : (v == "") = false := by
      cases hb : (v == "") with
      | false => rfl
      | true =>
        exfalso
        have : v = "" := by simpa using hb
        rw [this] at hv
        rw [hv] at h0
        cases h0
    simp [countB_append, dedupList, countB_dedupAux, hv, memB, countB, hv0]

/-- Claim C8 witness at the concrete leaves from the spec. -/
theorem c8_witness :
    ("Required" ∈ ["Required", "Required", "Too short"]) ∧
    (countB "Required"
        (joinedElems (.seq ((["Required", "Required", "Too short"]).map ErrorTree.leaf))) = 1 ∧
      createString (.seq [.leaf "Required", .leaf "Required", .leaf "Too short"]) =
        "Required. Too short.") :=
  ⟨by decide, c8_dedup_exactly_once ["Required", "Required", "Too short"] "Required" (by decide)⟩

theorem tcf_empty_seq : transformCollectionFlat (.seq []) = some (.leaf "") := rfl

theorem tcf_empty_map : transformCollectionFlat (.map []) = some (.leaf "") := rfl

/-- Claim C9: `transformErrors` on the empty mapping returns the empty
mapping (with any key set), and a key not kept nested whose value is an
empty sequence or an empty mapping flattens to the empty string. -/
theorem c9_empty_handling (k : String) (ks : List String)
    (h : keepNested ks k = false) :
    transformErrors [] ks = some [] ∧
    transformErrors [(k, .seq [])] ks = some [(k, .leaf "")] ∧
    transformErrors [(k, .map [])] ks = some [(k, .leaf "")] := by
  refine ⟨rfl, ?_, ?_⟩
  · simp [transformErrors, mapEntriesOpt, h, tcf_empty_seq]
  · simp [transformErrors, mapEntriesOpt, h, tcf_empty_map]

/-- Claim C9 witness at a concrete key and empty key set. -/
theorem c9_witness :
    keepNested [] "k" = false ∧
    (transformErrors [] [] = some [] ∧
      transformErrors [("k", .seq [])] [] = some [("k", .leaf "")] ∧
      transformErrors [("k", .map [])] [] = some [("k", .leaf "")]) :=
  ⟨rfl, c9_empty_handling "k" [] rfl⟩

theorem strAppend_data (a b : String) : (a ++ b).data = a.data ++ b.data := by
  cases a
  cases b
  rfl

theorem strAppend_assoc (a b c : String) : a ++ b ++ c = a ++ (b ++ c) := by
  cases a with | mk la =>
  cases b with | mk lb =>
  cases c with | mk lc =>
  show String.mk (la ++ lb ++ lc) = String.mk (la ++ (lb ++ lc))
  rw [List.append_assoc]

theorem strAppend_empty (s : String) : s ++ "" = s := by
  cases s with | mk ls =>
  show String.mk (ls ++ []) = String.mk ls
  rw [List.append_nil]

theorem joinSep_append_single (sep x : String) :
    ∀ xs : List String, xs ≠ [] →
      joinSep sep (xs ++ [x]) = joinSep sep xs ++ sep ++ x := by
  intro xs
  induction xs with
  | nil => intro h; exact absurd rfl h
  | cons y ys ih =>
    intro _
    cases ys with
    | nil => rfl
    | cons z zs =>
      show y ++ sep ++ joinSep sep ((z :: zs) ++ [x]) = _
      rw [ih (by simp)]
      rw [show joinSep sep (y :: z :: zs) = y ++ sep ++ joinSep sep (z :: zs) from rfl,
        strAppend_assoc (y ++ sep) (joinSep sep (z :: zs)) sep,
        strAppend_assoc (y ++ sep) (joinSep sep (z :: zs) ++ sep) x]

theorem joinSep_head_data (sep : String) (d : String) (D : List String) :
    ∃ t, (joinSep sep (d :: D)).data = d.data ++ t := by
  cases D with
  | nil => exact ⟨[], (List.append_nil _).symm⟩
  | cons z zs =>
    refine ⟨sep.data ++ (joinSep sep (z :: zs)).data, ?_⟩
    show (d ++ sep ++ joinSep sep (z :: zs)).data = _
    rw [strAppend_data, strAppend_data, List.append_assoc]

theorem trimChars_append_dot_space (c : Char) (rest : List Char)
    (hc : isWS c = false) :
    trimChars ((c :: rest) ++ ['.', ' ']) = (c :: rest) ++ ['.'] := by
  unfold trimChars
  have h1 : ((c :: rest) ++ ['.', ' ']).dropWhile isWS = (c :: rest) ++ ['.', ' '] := by
    rw [List.cons_append, List.dropWhile_cons, hc]
    simp
  rw [h1]
  have h2 : ((c :: rest) ++ ['.', ' ']).reverse = ' ' :: '.' :: (rest.reverse ++ [c]) := by
    simp
  rw [h2]
  have h3 : (' ' :: '.' :: (rest.reverse ++ [c])).dropWhile isWS =
      '.' :: (rest.reverse ++ [c]) := by
    rw [List.dropWhile_cons]
    rw [show isWS ' ' = true from rfl]
    simp only [if_true]
    rw [List.dropWhile_cons]
    rw [show isWS '.' = false from rfl]
    simp
  rw [h3]
  simp

theorem jsTrim_append_sep (J : String) (c : Char) (rest : List Char)
    (hd : J.data = c :: rest) (hc : isWS c = false) :
    jsTrim (J ++ ". ") = J ++ "." := by
  unfold jsTrim
  rw [strAppend_data, hd]
  rw [show (". " : String).data = ['.', ' '] from rfl]
  rw [trimChars_append_dot_space c rest hc]
  cases J with | mk lj =>
  have hlj : lj = c :: rest := hd
  subst hlj
  rfl

/-- Claim C10 (counterexample): the leaf `" a"` is non-empty and does not
end in whitespace, yet `createString` returns `"a."`, not the distinct
values joined plus a terminal period (`" a."`): `trim` also strips the
leading whitespace of the first value. -/
theorem c10_counterexample :
    ((" a" == "") = false ∧ lastNotWS " a" = true) ∧
    createString (.seq [.leaf " a"]) = "a." ∧
    joinSep ". " (dedupList [" a"]) ++ "." = " a." ∧
    ("a." == " a.") = false :=
  ⟨⟨rfl, rfl⟩, rfl, rfl, rfl⟩

/-- Claim C10 (amended): for a non-empty sequence of leaves whose values
are non-empty and neither begin nor end with whitespace, `createString`
returns the distinct values joined by `". "` followed by one terminal
period: the final `trim` removes only whitespace, so the period
contributed by the separator before the empty-string sentinel remains. -/
theorem c10_amended (l : List String) (hne : l ≠ [])
    (hv : ∀ v ∈ l, v ≠ "" ∧ headNotWS v = true ∧ lastNotWS v = true) :
    createString (.seq (l.map ErrorTree.leaf)) =
      joinSep ". " (dedupList l) ++ "." := by
  have h0 : memB "" l = false := by
    cases hm : memB "" l with
    | false => rfl
    | true => exact absurd rfl (hv "" ((memB_eq_true_iff "" l).mp hm)).1
  unfold createString
  rw [joinedElems_leaves, h0]
  simp only [Bool.false_eq_true, if_false]
  obtain ⟨d, ls, rfl⟩ : ∃ d ls, l = d :: ls := by
    cases l with
    | nil => exact absurd rfl hne
    | cons d ls => exact ⟨d, ls, rfl⟩
  rw [dedupList_cons]
  rw [joinSep_append_single ". " "" (d :: dedupAux [d] ls) (by simp)]
  rw [strAppend_empty]
  obtain ⟨hdne, hdh, hdl⟩ := hv d (by simp)
  obtain ⟨c, rest, hdd⟩ : ∃ c rest, d.data = c :: rest := by
    cases hcd : d.data with
    | nil =>
      exfalso
      apply hdne
      cases d with | mk dl =>
      cases hcd
      rfl
    | cons c rest => exact ⟨c, rest, rfl⟩
  have hcw : isWS c = false := by
    unfold headNotWS at hdh
    rw [hdd] at hdh
    simpa using hdh
  obtain ⟨t, hJ⟩ := joinSep_head_data ". " d (dedupAux [d] ls)
  exact jsTrim_append_sep _ c (rest ++ t) (by rw [hJ, hdd]; rfl) hcw

/-- Claim C10 witness at the concrete leaves from the spec. -/
theorem c10_witness :
    (["Required", "Required", "Too short"] : List String).isEmpty = false ∧
    createString (.seq ((["Required", "Required", "Too short"]).map ErrorTree.leaf)) =
      joinSep ". " (dedupList ["Required", "Required", "Too short"]) ++ "." :=
  ⟨rfl, c10_amended ["Required", "Required", "Too short"] (by decide) (by decide)⟩
